import Mathlib

/-!
Verification of the Drift ledger core: a shallow embedding of the
DriftComposer contract (session state machine), the DriftEventListener
backfill client, and the recap replay scheduler, together with theorems
settling the specified properties.
-/

namespace Drift

/-! Contract data model (DriftComposer.sol) -/

/-- Maximum session lifetime in blocks (MAX_SESSION_BLOCKS in the contract). -/
def MAX_SESSION_BLOCKS : Nat := 43200

/-- Modulus for uint64 casts. -/
def UINT64_MOD : Nat := 2 ^ 64

/-- Largest value of a uint32 counter; incrementing past it reverts. -/
def UINT32_MAX : Nat := 2 ^ 32 - 1

/-- Largest value of a uint16 counter; incrementing past it reverts. -/
def UINT16_MAX : Nat := 2 ^ 16 - 1

/-- Largest value of a uint256 counter; incrementing past it reverts. -/
def UINT256_MAX : Nat := 2 ^ 256 - 1

/-- The Session struct of DriftComposer. Addresses are modelled as naturals. -/
structure Session where
  creator : Nat
  startBlock : Nat
  endBlock : Nat
  totalNotes : Nat
  uniquePlayers : Nat
  active : Bool
deriving DecidableEq, Repr

/-- The zero value a Solidity mapping yields for a never-written key. -/
def Session.zero : Session :=
  { creator := 0, startBlock := 0, endBlock := 0, totalNotes := 0
  , uniquePlayers := 0, active := false }

/-- The NoteCreated event emitted by touch. -/
structure NoteCreated where
  sessionId : Nat
  player : Nat
  x : Int
  y : Int
  blockNum : Nat
  timestamp : Nat
  noteIndex : Nat
  totalNotesInSession : Nat
deriving DecidableEq, Repr

/-- Full storage of the DriftComposer contract, plus the append-only list of
emitted NoteCreated events (the event log read back by the sync client). -/
structure ComposerState where
  owner : Nat
  nextSessionId : Nat
  sessions : Nat → Session
  hasPlayed : Nat → Nat → Bool
  playerCount : Nat → Nat
  notesInBlock : Nat → Nat → Nat
  log : List NoteCreated

/-- State right after the constructor runs with the given deployer. -/
def initState (deployer : Nat) : ComposerState :=
  { owner := deployer, nextSessionId := 0
  , sessions := fun _ => Session.zero
  , hasPlayed := fun _ _ => false
  , playerCount := fun _ => 0
  , notesInBlock := fun _ _ => 0
  , log := [] }

/-- Errors of createSession: the only way it can revert is the checked
increment of nextSessionId overflowing uint256. -/
inductive CreateError
  | overflow
deriving DecidableEq, Repr

/-- Errors of touch: require failures "Session not active" and
"Session expired", plus checked-arithmetic overflow of a counter. -/
inductive TouchError
  | notActive
  | expired
  | overflow
deriving DecidableEq, Repr

/-- Errors of endSession: require failures "Not active" and "Not authorized". -/
inductive EndError
  | notActive
  | notAuthorized
deriving DecidableEq, Repr

/-- createSession: allocates the next id and stores a fresh active session
with startBlock set to the (uint64-truncated) current block number. -/
def createSession (s : ComposerState) (sender blockNumber : Nat) :
    Except CreateError (ComposerState × Nat) :=
  if s.nextSessionId = UINT256_MAX then .error .overflow
  else
    let newId := s.nextSessionId + 1
    .ok ({ s with
            nextSessionId := newId
          , sessions := fun i =>
              if i = newId then
                { creator := sender, startBlock := blockNumber % UINT64_MOD
                , endBlock := 0, totalNotes := 0, uniquePlayers := 0
                , active := true }
              else s.sessions i }, newId)

/-- The internal _clamp helper of the contract. -/
def _clamp (val minVal maxVal : Int) : Int :=
  if val < minVal then minVal
  else if maxVal < val then maxVal
  else val

/-- The NoteCreated event a successful touch emits (the local ev of touch):
coordinates clamped, blockNum and timestamp uint64-truncated, noteIndex the
post-increment per-(session, block) counter, totalNotesInSession the
post-increment session counter. -/
def touchEvent (s : ComposerState) (sender sessionId : Nat) (x y : Int)
    (blockNumber timestamp : Nat) : NoteCreated :=
  { sessionId := sessionId, player := sender
  , x := _clamp x (-1000) 1000, y := _clamp y (-1000) 1000
  , blockNum := blockNumber % UINT64_MOD, timestamp := timestamp % UINT64_MOD
  , noteIndex := s.notesInBlock sessionId (blockNumber % UINT64_MOD) + 1
  , totalNotesInSession := (s.sessions sessionId).totalNotes + 1 }

/-- touch: validates the session (require active, require not expired),
clamps the coordinates, updates participation and counters (checked
arithmetic reverts on overflow), appends and returns the NoteCreated event. -/
def touch (s : ComposerState) (sender sessionId : Nat) (x y : Int)
    (blockNumber timestamp : Nat) : Except TouchError (ComposerState × NoteCreated) :=
  if (s.sessions sessionId).active = false then .error .notActive
  else if (s.sessions sessionId).startBlock + MAX_SESSION_BLOCKS < blockNumber then
    .error .expired
  else if s.hasPlayed sessionId sender = false ∧ s.playerCount sessionId = UINT16_MAX then
    .error .overflow
  else if (s.sessions sessionId).totalNotes = UINT32_MAX then .error .overflow
  else if s.notesInBlock sessionId (blockNumber % UINT64_MOD) = UINT16_MAX then
    .error .overflow
  else if s.hasPlayed sessionId sender = false then
    .ok ({ s with
            sessions := fun i =>
              if i = sessionId then
                { s.sessions sessionId with
                    totalNotes := (s.sessions sessionId).totalNotes + 1
                  , uniquePlayers := s.playerCount sessionId + 1 }
              else s.sessions i
          , hasPlayed := fun i a =>
              if i = sessionId ∧ a = sender then true else s.hasPlayed i a
          , playerCount := fun i =>
              if i = sessionId then s.playerCount i + 1 else s.playerCount i
          , notesInBlock := fun i b =>
              if i = sessionId ∧ b = blockNumber % UINT64_MOD then
                s.notesInBlock i b + 1
              else s.notesInBlock i b
          , log := s.log ++ [touchEvent s sender sessionId x y blockNumber timestamp] },
         touchEvent s sender sessionId x y blockNumber timestamp)
  else
    .ok ({ s with
            sessions := fun i =>
              if i = sessionId then
                { s.sessions sessionId with
                    totalNotes := (s.sessions sessionId).totalNotes + 1 }
              else s.sessions i
          , notesInBlock := fun i b =>
              if i = sessionId ∧ b = blockNumber % UINT64_MOD then
                s.notesInBlock i b + 1
              else s.notesInBlock i b
          , log := s.log ++ [touchEvent s sender sessionId x y blockNumber timestamp] },
         touchEvent s sender sessionId x y blockNumber timestamp)

/-- The internal _endSession helper: records the (uint64-truncated) end block
and deactivates the session. -/
def _endSession (s : ComposerState) (sessionId blockNumber : Nat) : ComposerState :=
  { s with
      sessions := fun i =>
        if i = sessionId then
          { s.sessions sessionId with
              endBlock := blockNumber % UINT64_MOD, active := false }
        else s.sessions i }

/-- endSession: require active, require caller is creator or owner, then end. -/
def endSession (s : ComposerState) (sender sessionId blockNumber : Nat) :
    Except EndError ComposerState :=
  if (s.sessions sessionId).active = false then .error .notActive
  else if sender = (s.sessions sessionId).creator ∨ sender = s.owner then
    .ok (_endSession s sessionId blockNumber)
  else .error .notAuthorized

/-- getSession view: returns the stored (possibly zero) session. -/
def getSession (s : ComposerState) (sessionId : Nat) : Session :=
  s.sessions sessionId

/-- isSessionActive view: active flag and the same expiry bound touch checks. -/
def isSessionActive (s : ComposerState) (sessionId blockNumber : Nat) : Bool :=
  (s.sessions sessionId).active &&
    decide (blockNumber ≤ (s.sessions sessionId).startBlock + MAX_SESSION_BLOCKS)

/-- Run touch as a transaction: a revert leaves the state unchanged. -/
def touchRun (s : ComposerState) (sender sessionId : Nat) (x y : Int)
    (blockNumber timestamp : Nat) : ComposerState :=
  match touch s sender sessionId x y blockNumber timestamp with
  | .ok p => p.1
  | .error _ => s

/-- Whether a touch transaction succeeds. -/
def touchOk (s : ComposerState) (sender sessionId : Nat) (x y : Int)
    (blockNumber timestamp : Nat) : Bool :=
  match touch s sender sessionId x y blockNumber timestamp with
  | .ok _ => true
  | .error _ => false

/-- Run endSession as a transaction: a revert leaves the state unchanged. -/
def endRun (s : ComposerState) (sender sessionId blockNumber : Nat) : ComposerState :=
  match endSession s sender sessionId blockNumber with
  | .ok s₂ => s₂
  | .error _ => s

/-! Basic characterization lemmas for touch -/

theorem touch_err_notActive {s : ComposerState} {sid : Nat} (sender : Nat) (x y : Int)
    (bn ts : Nat) (h : (s.sessions sid).active = false) :
    touch s sender sid x y bn ts = .error .notActive := by
  simp [touch, h]

theorem touch_err_expired {s : ComposerState} {sid : Nat} (sender : Nat) (x y : Int)
    {bn : Nat} (ts : Nat) (h1 : (s.sessions sid).active = true)
    (h2 : (s.sessions sid).startBlock + MAX_SESSION_BLOCKS < bn) :
    touch s sender sid x y bn ts = .error .expired := by
  simp [touch, h1, h2]

theorem touch_ok_guards {s : ComposerState} {sender sid : Nat} {x y : Int}
    {bn ts : Nat} {p : ComposerState × NoteCreated}
    (h : touch s sender sid x y bn ts = .ok p) :
    (s.sessions sid).active = true ∧
    bn ≤ (s.sessions sid).startBlock + MAX_SESSION_BLOCKS ∧
    ¬(s.hasPlayed sid sender = false ∧ s.playerCount sid = UINT16_MAX) ∧
    (s.sessions sid).totalNotes ≠ UINT32_MAX ∧
    s.notesInBlock sid (bn % UINT64_MOD) ≠ UINT16_MAX := by
  simp only [touch] at h
  by_cases h1 : (s.sessions sid).active = false
  · rw [if_pos h1] at h; simp at h
  rw [if_neg h1] at h
  by_cases h2 : (s.sessions sid).startBlock + MAX_SESSION_BLOCKS < bn
  · rw [if_pos h2] at h; simp at h
  rw [if_neg h2] at h
  by_cases h3 : s.hasPlayed sid sender = false ∧ s.playerCount sid = UINT16_MAX
  · rw [if_pos h3] at h; simp at h
  rw [if_neg h3] at h
  by_cases h4 : (s.sessions sid).totalNotes = UINT32_MAX
  · rw [if_pos h4] at h; simp at h
  rw [if_neg h4] at h
  by_cases h5 : s.notesInBlock sid (bn % UINT64_MOD) = UINT16_MAX
  · rw [if_pos h5] at h; simp at h
  exact ⟨by simpa using h1, by omega, h3, h4, h5⟩

theorem touchOk_of_guards {s : ComposerState} {sender sid : Nat} (x y : Int)
    {bn : Nat} (ts : Nat)
    (h1 : (s.sessions sid).active = true)
    (h2 : bn ≤ (s.sessions sid).startBlock + MAX_SESSION_BLOCKS)
    (h3 : ¬(s.hasPlayed sid sender = false ∧ s.playerCount sid = UINT16_MAX))
    (h4 : (s.sessions sid).totalNotes ≠ UINT32_MAX)
    (h5 : s.notesInBlock sid (bn % UINT64_MOD) ≠ UINT16_MAX) :
    touchOk s sender sid x y bn ts = true := by
  unfold touchOk touch
  rw [if_neg (by simp [h1]), if_neg (by omega), if_neg h3, if_neg h4, if_neg h5]
  cases hp : s.hasPlayed sid sender <;> simp [hp]

theorem touch_ok_result {s : ComposerState} {sender sid : Nat} {x y : Int}
    {bn ts : Nat} {p : ComposerState × NoteCreated}
    (h : touch s sender sid x y bn ts = .ok p) :
    p.2 = { sessionId := sid, player := sender
          , x := _clamp x (-1000) 1000, y := _clamp y (-1000) 1000
          , blockNum := bn % UINT64_MOD, timestamp := ts % UINT64_MOD
          , noteIndex := s.notesInBlock sid (bn % UINT64_MOD) + 1
          , totalNotesInSession := (s.sessions sid).totalNotes + 1 } ∧
    p.1.log = s.log ++ [p.2] ∧
    p.1.owner = s.owner ∧
    p.1.nextSessionId = s.nextSessionId ∧
    (p.1.sessions sid).totalNotes = (s.sessions sid).totalNotes + 1 ∧
    (p.1.sessions sid).creator = (s.sessions sid).creator ∧
    (p.1.sessions sid).startBlock = (s.sessions sid).startBlock ∧
    (p.1.sessions sid).endBlock = (s.sessions sid).endBlock ∧
    (p.1.sessions sid).active = (s.sessions sid).active ∧
    (∀ i, i ≠ sid → p.1.sessions i = s.sessions i) ∧
    (∀ i b, p.1.notesInBlock i b =
      if i = sid ∧ b = bn % UINT64_MOD then s.notesInBlock i b + 1
      else s.notesInBlock i b) ∧
    (if s.hasPlayed sid sender = false then
       (p.1.sessions sid).uniquePlayers = s.playerCount sid + 1 ∧
       p.1.playerCount sid = s.playerCount sid + 1 ∧
       (∀ i a, p.1.hasPlayed i a =
         if i = sid ∧ a = sender then true else s.hasPlayed i a) ∧
       (∀ i, i ≠ sid → p.1.playerCount i = s.playerCount i)
     else
       (p.1.sessions sid).uniquePlayers = (s.sessions sid).uniquePlayers ∧
       p.1.playerCount = s.playerCount ∧
       p.1.hasPlayed = s.hasPlayed) := by
  obtain ⟨g1, g2, g3, g4, g5⟩ := touch_ok_guards h
  simp only [touch] at h
  rw [if_neg (by simp [g1]), if_neg (by omega), if_neg g3, if_neg g4, if_neg g5] at h
  by_cases hp : s.hasPlayed sid sender = false
  · rw [if_pos hp] at h
    injection h with h₂
    subst h₂
    simp only [touchEvent]
    simp [hp]
    exact fun i hne heq => absurd heq hne
  · rw [if_neg hp] at h
    injection h with h₂
    subst h₂
    simp only [touchEvent]
    simp [hp]
    exact fun i hne heq => absurd heq hne

theorem touch_no_validation_error {s : ComposerState} {sender sid : Nat}
    {x y : Int} {bn : Nat} {ts : Nat}
    (h1 : (s.sessions sid).active = true)
    (h2 : ¬ ((s.sessions sid).startBlock + MAX_SESSION_BLOCKS < bn)) :
    touch s sender sid x y bn ts ≠ .error .notActive ∧
    touch s sender sid x y bn ts ≠ .error .expired := by
  by_cases g3 : s.hasPlayed sid sender = false ∧ s.playerCount sid = UINT16_MAX
  · simp [touch, h1, h2, g3]
  by_cases g4 : (s.sessions sid).totalNotes = UINT32_MAX
  · simp [touch, h1, h2, g3, g4]
  by_cases g5 : s.notesInBlock sid (bn % UINT64_MOD) = UINT16_MAX
  · simp [touch, h1, h2, g3, g4, g5]
  by_cases hp : s.hasPlayed sid sender = false
  · have g3b : s.playerCount sid ≠ UINT16_MAX := fun hq => g3 ⟨hp, hq⟩
    simp [touch, h1, h2, g3b, g4, g5, hp]
  · simp [touch, h1, h2, g3, g4, g5, hp]

/-! Demonstration states -/

/-- Deploy with owner 9, then createSession from account 7 at block 5. -/
def sessionOneState : ComposerState :=
  match createSession (initState 9) 7 5 with
  | .ok p => p.1
  | .error _ => initState 9

/-- sessionOneState with session 1 ended by its creator at block 6. -/
def sessionOneEnded : ComposerState :=
  match endSession sessionOneState 7 1 6 with
  | .ok s₂ => s₂
  | .error _ => sessionOneState

/-! Claim C1 -/

/-- Claim C1 counterexample: in a state where session 1 was created and ended
and session 2 was never created, a touch on the never created session 2 fails
with exactly the same error (the require "Session not active", the code name
of SessionInactive) as a touch on the ended session 1; the contract has no
separate SessionNotFound failure, refuting the claim that an unknown session
id fails with SessionNotFound. -/
theorem touch_unknown_session_error_cex :
    sessionOneEnded.nextSessionId = 1 ∧
    (sessionOneEnded.sessions 2).startBlock = 0 ∧
    touch sessionOneEnded 5 2 0 0 10 10 = .error .notActive ∧
    touch sessionOneEnded 5 1 0 0 10 10 = .error .notActive :=
  ⟨rfl, rfl, rfl, rfl⟩

/-- Claim C1 (amended): a Touch on a session that was never created fails with
SessionInactive (the contract does not distinguish unknown sessions from
inactive ones: both hit the require "Session not active"); a session with
active == false fails with SessionInactive; an active session whose current
block exceeds startBlock + MAX_SESSION_BLOCKS fails with SessionExpired; and
in every failure case the transaction reverts, so no session state, counter,
or participation record is mutated. -/
theorem touch_validation_and_no_mutation (s : ComposerState) (sender sid : Nat)
    (x y : Int) (bn ts : Nat) :
    (s.sessions sid = Session.zero → touch s sender sid x y bn ts = .error .notActive) ∧
    ((s.sessions sid).active = false → touch s sender sid x y bn ts = .error .notActive) ∧
    ((s.sessions sid).active = true →
      (s.sessions sid).startBlock + MAX_SESSION_BLOCKS < bn →
      touch s sender sid x y bn ts = .error .expired) ∧
    (∀ e, touch s sender sid x y bn ts = .error e →
      touchRun s sender sid x y bn ts = s) := by
  refine ⟨?_, ?_, ?_, ?_⟩
  · intro hz
    exact touch_err_notActive sender x y bn ts (by rw [hz]; rfl)
  · exact touch_err_notActive sender x y bn ts
  · exact touch_err_expired sender x y ts
  · intro e he
    unfold touchRun
    rw [he]

theorem touch_validation_and_no_mutation_witness :
    touch (initState 9) 5 1 0 0 10 10 = .error .notActive :=
  (touch_validation_and_no_mutation (initState 9) 5 1 0 0 10 10).2.1 rfl

/-! Claim C2 -/

/-- Claim C2: the coordinates carried by the NoteCreated event of every
successful touch lie within [-1000, 1000]; an input below -1000 is stored as
-1000, one above 1000 as 1000, an in-range input is stored unchanged; and
out-of-range inputs are never rejected (whether touch succeeds does not
depend on x or y at all). -/
theorem touch_clamps_coordinates (s : ComposerState) (sender sid : Nat)
    (x y : Int) (bn ts : Nat) (s₂ : ComposerState) (e : NoteCreated)
    (h : touch s sender sid x y bn ts = .ok (s₂, e)) :
    (-1000 ≤ e.x) ∧ (e.x ≤ 1000) ∧ (-1000 ≤ e.y) ∧ (e.y ≤ 1000) ∧
    (x < -1000 → e.x = -1000) ∧ (1000 < x → e.x = 1000) ∧
    (-1000 ≤ x → x ≤ 1000 → e.x = x) ∧
    (y < -1000 → e.y = -1000) ∧ (1000 < y → e.y = 1000) ∧
    (-1000 ≤ y → y ≤ 1000 → e.y = y) ∧
    (∀ x₂ y₂ : Int, touchOk s sender sid x₂ y₂ bn ts = true) := by
  have hres := touch_ok_result h
  have hex : e.x = _clamp x (-1000) 1000 := by
    rw [show e = (s₂, e).2 from rfl, hres.1]
  have hey : e.y = _clamp y (-1000) 1000 := by
    rw [show e = (s₂, e).2 from rfl, hres.1]
  obtain ⟨g1, g2, g3, g4, g5⟩ := touch_ok_guards h
  refine ⟨?_, ?_, ?_, ?_, ?_, ?_, ?_, ?_, ?_, ?_,
    fun x₂ y₂ => touchOk_of_guards x₂ y₂ ts g1 g2 g3 g4 g5⟩
  all_goals intros
  all_goals first
    | (rw [hex]; unfold _clamp; split_ifs <;> omega)
    | (rw [hey]; unfold _clamp; split_ifs <;> omega)

/-- Created session 1, then a touch from account 4 with x = 2000 (above the
legal range) and y = -7 (in range) at block 6. -/
def c2Pair : ComposerState × NoteCreated :=
  match touch sessionOneState 4 1 2000 (-7) 6 10 with
  | .ok p => p
  | .error _ => (sessionOneState, ⟨0, 0, 0, 0, 0, 0, 0, 0⟩)

theorem touch_clamps_coordinates_witness :
    (1000 : Int) < 2000 ∧ c2Pair.2.x = 1000 ∧ c2Pair.2.y = -7 := by
  have hmain := touch_clamps_coordinates sessionOneState 4 1 2000 (-7) 6 10
    c2Pair.1 c2Pair.2 rfl
  exact ⟨by decide, hmain.2.2.2.2.2.1 (by decide),
    hmain.2.2.2.2.2.2.2.2.2.1 (by decide) (by decide)⟩

/-! Claim C7 -/

/-- Claim C7: endSession on an active session fails with NotAuthorized when
the caller is neither the session creator nor the contract owner; on success
(active session, authorized caller, block number in uint64 range) it sets
endBlock to the current block and active to false and leaves the counters
unchanged, and every later endSession on that session fails with
SessionInactive and leaves the state (endBlock and counters) unchanged. -/
theorem endSession_spec (s : ComposerState) (sender sid bn : Nat) :
    ((s.sessions sid).active = true → sender ≠ (s.sessions sid).creator →
      sender ≠ s.owner → endSession s sender sid bn = .error .notAuthorized) ∧
    ((s.sessions sid).active = true →
      (sender = (s.sessions sid).creator ∨ sender = s.owner) → bn < UINT64_MOD →
      ∃ s₂, endSession s sender sid bn = .ok s₂ ∧
        (s₂.sessions sid).endBlock = bn ∧
        (s₂.sessions sid).active = false ∧
        (s₂.sessions sid).totalNotes = (s.sessions sid).totalNotes ∧
        (s₂.sessions sid).uniquePlayers = (s.sessions sid).uniquePlayers ∧
        (∀ sender₂ bn₂, endSession s₂ sender₂ sid bn₂ = .error .notActive ∧
          endRun s₂ sender₂ sid bn₂ = s₂)) := by
  constructor
  · intro ha hc ho
    unfold endSession
    rw [if_neg (by simp [ha]), if_neg (by tauto)]
  · intro ha hauth hbn
    have hia : ((_endSession s sid bn).sessions sid).active = false := by
      simp [_endSession]
    refine ⟨_endSession s sid bn, ?_, ?_, ?_, ?_, ?_, ?_⟩
    · unfold endSession
      rw [if_neg (by simp [ha]), if_pos hauth]
    · simp [_endSession]
      exact Nat.mod_eq_of_lt hbn
    · exact hia
    · simp [_endSession]
    · simp [_endSession]
    · intro sender₂ bn₂
      constructor
      · unfold endSession
        rw [if_pos hia]
      · unfold endRun endSession
        rw [if_pos hia]

theorem endSession_spec_witness :
    ((endRun sessionOneState 7 1 8).sessions 1).endBlock = 8 ∧
    ((endRun sessionOneState 7 1 8).sessions 1).active = false := by
  obtain ⟨s₂, h1, h2, h3, -⟩ :=
    (endSession_spec sessionOneState 7 1 8).2 (by rfl) (Or.inl (by rfl)) (by decide)
  unfold endRun
  rw [h1]
  exact ⟨h2, h3⟩

/-! Claim C10 -/

/-- Claim C10: the read-only view isSessionActive returns true exactly when a
Touch in the same state passes both validation checks, that is, exactly when
touch fails with neither SessionInactive nor SessionExpired. -/
theorem isSessionActive_iff_touch_validation (s : ComposerState) (sender sid : Nat)
    (x y : Int) (bn ts : Nat) :
    isSessionActive s sid bn = true ↔
      (touch s sender sid x y bn ts ≠ .error .notActive ∧
       touch s sender sid x y bn ts ≠ .error .expired) := by
  unfold isSessionActive
  by_cases h1 : (s.sessions sid).active = false
  · simp [h1, touch_err_notActive sender x y bn ts h1]
  · have h1t : (s.sessions sid).active = true := by simpa using h1
    by_cases h2 : (s.sessions sid).startBlock + MAX_SESSION_BLOCKS < bn
    · have h2n : ¬ (bn ≤ (s.sessions sid).startBlock + MAX_SESSION_BLOCKS) := by omega
      simp [h1t, h2n, touch_err_expired sender x y ts h1t h2]
    · have h2y : bn ≤ (s.sessions sid).startBlock + MAX_SESSION_BLOCKS := by omega
      simp only [h1t, Bool.true_and, decide_eq_true_eq]
      exact iff_of_true h2y (touch_no_validation_error h1t h2)

/-! Claim C4: traces of operations and session invariants -/

/-- Run createSession as a transaction: a revert leaves the state unchanged. -/
def createRun (s : ComposerState) (sender blockNumber : Nat) : ComposerState :=
  match createSession s sender blockNumber with
  | .ok p => p.1
  | .error _ => s

/-- A mutating contract call together with its block environment. -/
inductive Op
  | create (sender blockNumber : Nat)
  | touchOp (sender sessionId : Nat) (x y : Int) (blockNumber timestamp : Nat)
  | endOp (sender sessionId blockNumber : Nat)

/-- Execute one call as a transaction: a revert leaves the state unchanged. -/
def applyOp (s : ComposerState) : Op → ComposerState
  | .create sender bn => createRun s sender bn
  | .touchOp sender sid x y bn ts => touchRun s sender sid x y bn ts
  | .endOp sender sid bn => endRun s sender sid bn

/-- Execute a list of calls in order. -/
def execTrace (s : ComposerState) (ops : List Op) : ComposerState :=
  ops.foldl applyOp s

/-- Whether a call, if it is an end call, happens at a block whose uint64
truncation is nonzero (true of every block of a real chain history below
2^64 except the genesis block 0). -/
def goodEnd : Op → Bool
  | .endOp _ _ bn => decide (bn % UINT64_MOD ≠ 0)
  | _ => true

theorem createRun_eq (s : ComposerState) (sender bn : Nat) :
    createRun s sender bn =
      if s.nextSessionId = UINT256_MAX then s
      else
        { s with
            nextSessionId := s.nextSessionId + 1
          , sessions := fun i =>
              if i = s.nextSessionId + 1 then
                { creator := sender, startBlock := bn % UINT64_MOD
                , endBlock := 0, totalNotes := 0, uniquePlayers := 0
                , active := true }
              else s.sessions i } := by
  unfold createRun createSession
  by_cases hc : s.nextSessionId = UINT256_MAX <;> simp [hc]

theorem endRun_eq (s : ComposerState) (sender sid bn : Nat) :
    endRun s sender sid bn =
      if (s.sessions sid).active = true ∧
          (sender = (s.sessions sid).creator ∨ sender = s.owner) then
        _endSession s sid bn
      else s := by
  unfold endRun endSession
  by_cases h1 : (s.sessions sid).active = false
  · simp [h1]
  · have h1t : (s.sessions sid).active = true := by simpa using h1
    by_cases h2 : sender = (s.sessions sid).creator ∨ sender = s.owner
    · simp [h1, h1t, h2]
    · simp [h1, h1t, h2]

/-- Structural well-formedness tying the auxiliary mappings together:
sessions above nextSessionId are still zero valued with zero player count,
uniquePlayers mirrors playerCount, and playerCount never exceeds totalNotes. -/
def StateWF (s : ComposerState) : Prop :=
  (∀ id, s.nextSessionId < id → s.sessions id = Session.zero ∧ s.playerCount id = 0) ∧
  (∀ id, (s.sessions id).uniquePlayers = s.playerCount id) ∧
  (∀ id, s.playerCount id ≤ (s.sessions id).totalNotes)

/-- The endSlot and active fields correspond on every created session. -/
def EndIffActive (s : ComposerState) : Prop :=
  ∀ id, 1 ≤ id → id ≤ s.nextSessionId →
    ((s.sessions id).endBlock = 0 ↔ (s.sessions id).active = true)

theorem stateWF_init (deployer : Nat) : StateWF (initState deployer) := by
  refine ⟨fun id _ => ⟨rfl, rfl⟩, fun id => rfl, fun id => Nat.le_refl _⟩

theorem endIffActive_init (deployer : Nat) : EndIffActive (initState deployer) := by
  intro id h1 h2
  simp [initState] at h2
  omega

theorem stateWF_step {s : ComposerState} (h : StateWF s) (op : Op) :
    StateWF (applyOp s op) := by
  obtain ⟨hz, hu, hb⟩ := h
  cases op with
  | create sender bn =>
    simp only [applyOp, createRun_eq]
    by_cases hc : s.nextSessionId = UINT256_MAX
    · simpa [hc] using ⟨hz, hu, hb⟩
    · rw [if_neg hc]
      refine ⟨fun id hid => ?_, fun id => ?_, fun id => ?_⟩
      · have hid2 : s.nextSessionId < id := by simp at hid; omega
        have hne : ¬ (id = s.nextSessionId + 1) := by simp at hid ⊢; omega
        simpa [hne] using hz id hid2
      · by_cases he : id = s.nextSessionId + 1
        · simpa [he] using (hz (s.nextSessionId + 1) (by omega)).2.symm
        · simpa [he] using hu id
      · by_cases he : id = s.nextSessionId + 1
        · simp [he]
          have := (hz (s.nextSessionId + 1) (by omega)).2
          omega
        · simpa [he] using hb id
  | touchOp sender sid x y bn ts =>
    simp only [applyOp]
    cases htr : touch s sender sid x y bn ts with
    | error e =>
      unfold touchRun
      rw [htr]
      exact ⟨hz, hu, hb⟩
    | ok p =>
      unfold touchRun
      rw [htr]
      obtain ⟨-, -, -, hnx, htn, -, -, -, -, hother, -, hcase⟩ := touch_ok_result htr
      have hact := (touch_ok_guards htr).1
      have hsid : ¬ (s.nextSessionId < sid) := by
        intro hlt
        have := (hz sid hlt).1
        rw [this] at hact
        simp [Session.zero] at hact
      by_cases hp : s.hasPlayed sid sender = false
      · rw [if_pos hp] at hcase
        obtain ⟨hup, hpc, -, hpcother⟩ := hcase
        refine ⟨fun id hid => ?_, fun id => ?_, fun id => ?_⟩
        · rw [hnx] at hid
          have hne : id ≠ sid := by omega
          rw [hother id hne, hpcother id hne]
          exact hz id hid
        · by_cases he : id = sid
          · subst he; rw [hup, hpc]
          · rw [hother id he, hpcother id he]; exact hu id
        · by_cases he : id = sid
          · subst he
            rw [hpc, htn]
            have := hb id
            omega
          · rw [hother id he, hpcother id he]; exact hb id
      · rw [if_neg hp] at hcase
        obtain ⟨hup, hpc, -⟩ := hcase
        refine ⟨fun id hid => ?_, fun id => ?_, fun id => ?_⟩
        · rw [hnx] at hid
          have hne : id ≠ sid := by omega
          rw [hother id hne, hpc]
          exact hz id hid
        · by_cases he : id = sid
          · subst he; rw [hup, hpc]; exact hu id
          · rw [hother id he, hpc]; exact hu id
        · by_cases he : id = sid
          · subst he
            rw [hpc, htn]
            have := hb id
            omega
          · rw [hother id he, hpc]; exact hb id
  | endOp sender sid bn =>
    simp only [applyOp, endRun_eq]
    by_cases hc : (s.sessions sid).active = true ∧
        (sender = (s.sessions sid).creator ∨ sender = s.owner)
    · rw [if_pos hc]
      have hsid : ¬ (s.nextSessionId < sid) := by
        intro hlt
        have := (hz sid hlt).1
        rw [this] at hc
        simp [Session.zero] at hc
      refine ⟨fun id hid => ?_, fun id => ?_, fun id => ?_⟩
      · have hne : ¬ (id = sid) := by simp [_endSession] at hid ⊢; omega
        simp only [_endSession] at hid ⊢
        simpa [hne] using hz id (by simpa using hid)
      · by_cases he : id = sid
        · subst he; simpa [_endSession] using hu id
        · simpa [_endSession, he] using hu id
      · by_cases he : id = sid
        · subst he; simpa [_endSession] using hb id
        · simpa [_endSession, he] using hb id
    · rw [if_neg hc]
      exact ⟨hz, hu, hb⟩

theorem applyOp_mono (s : ComposerState) (op : Op) :
    s.nextSessionId ≤ (applyOp s op).nextSessionId ∧
    ∀ id, id ≤ s.nextSessionId →
      (s.sessions id).totalNotes ≤ ((applyOp s op).sessions id).totalNotes ∧
      ((s.sessions id).active = false → ((applyOp s op).sessions id).active = false) := by
  cases op with
  | create sender bn =>
    simp only [applyOp, createRun_eq]
    by_cases hc : s.nextSessionId = UINT256_MAX
    · rw [if_pos hc]
      exact ⟨Nat.le_refl _, fun id _ => ⟨Nat.le_refl _, fun h => h⟩⟩
    · rw [if_neg hc]
      refine ⟨by simp, fun id hid => ?_⟩
      have hne : ¬ (id = s.nextSessionId + 1) := by omega
      constructor
      · simp [hne]
      · intro h
        simpa [hne] using h
  | touchOp sender sid x y bn ts =>
    simp only [applyOp]
    cases htr : touch s sender sid x y bn ts with
    | error e =>
      unfold touchRun
      rw [htr]
      exact ⟨Nat.le_refl _, fun id _ => ⟨Nat.le_refl _, fun h => h⟩⟩
    | ok p =>
      unfold touchRun
      rw [htr]
      obtain ⟨-, -, -, hnx, htn, -, -, -, hact, hother, -, -⟩ := touch_ok_result htr
      refine ⟨by rw [hnx], fun id hid => ?_⟩
      by_cases he : id = sid
      · subst he
        exact ⟨by rw [htn]; omega, fun h => by rw [hact]; exact h⟩
      · rw [hother id he]
        exact ⟨Nat.le_refl _, fun h => h⟩
  | endOp sender sid bn =>
    simp only [applyOp, endRun_eq]
    by_cases hc : (s.sessions sid).active = true ∧
        (sender = (s.sessions sid).creator ∨ sender = s.owner)
    · rw [if_pos hc]
      refine ⟨Nat.le_refl _, fun id hid => ?_⟩
      by_cases he : id = sid
      · subst he
        exact ⟨by simp [_endSession], fun h => by simp [_endSession]⟩
      · exact ⟨by simp [_endSession, he], fun h => by simpa [_endSession, he] using h⟩
    · rw [if_neg hc]
      exact ⟨Nat.le_refl _, fun id _ => ⟨Nat.le_refl _, fun h => h⟩⟩

theorem endIffActive_step {s : ComposerState} (h : EndIffActive s) (op : Op)
    (hg : goodEnd op = true) : EndIffActive (applyOp s op) := by
  cases op with
  | create sender bn =>
    simp only [applyOp, createRun_eq]
    by_cases hc : s.nextSessionId = UINT256_MAX
    · rw [if_pos hc]
      exact h
    · rw [if_neg hc]
      intro id h1 h2
      by_cases he : id = s.nextSessionId + 1
      · simp [he]
      · have hle : id ≤ s.nextSessionId := by simp at h2; omega
        simpa [he] using h id h1 hle
  | touchOp sender sid x y bn ts =>
    simp only [applyOp]
    cases htr : touch s sender sid x y bn ts with
    | error e =>
      unfold touchRun
      rw [htr]
      exact h
    | ok p =>
      unfold touchRun
      rw [htr]
      obtain ⟨-, -, -, hnx, -, -, -, hend, hact, hother, -, -⟩ := touch_ok_result htr
      intro id h1 h2
      rw [hnx] at h2
      by_cases he : id = sid
      · subst he
        rw [hend, hact]
        exact h id h1 h2
      · rw [hother id he]
        exact h id h1 h2
  | endOp sender sid bn =>
    simp only [applyOp, endRun_eq]
    have hg2 : bn % UINT64_MOD ≠ 0 := by simpa [goodEnd] using hg
    by_cases hc : (s.sessions sid).active = true ∧
        (sender = (s.sessions sid).creator ∨ sender = s.owner)
    · rw [if_pos hc]
      intro id h1 h2
      simp only [_endSession] at h2 ⊢
      by_cases he : id = sid
      · subst he
        simp [hg2]
      · simpa [he] using h id h1 h2
    · rw [if_neg hc]
      exact h

theorem stateWF_trace {s : ComposerState} (h : StateWF s) (ops : List Op) :
    StateWF (execTrace s ops) := by
  induction ops generalizing s with
  | nil => exact h
  | cons op rest ih => exact ih (stateWF_step h op)

theorem endIffActive_trace {s : ComposerState} (h : EndIffActive s) (ops : List Op)
    (hg : ∀ op ∈ ops, goodEnd op = true) : EndIffActive (execTrace s ops) := by
  induction ops generalizing s with
  | nil => exact h
  | cons op rest ih =>
    exact ih (endIffActive_step h op (hg op (by simp)))
      (fun op₂ hmem => hg op₂ (by simp [hmem]))

theorem trace_mono (ops : List Op) (s : ComposerState) :
    s.nextSessionId ≤ (execTrace s ops).nextSessionId ∧
    ∀ id, id ≤ s.nextSessionId →
      (s.sessions id).totalNotes ≤ ((execTrace s ops).sessions id).totalNotes ∧
      ((s.sessions id).active = false → ((execTrace s ops).sessions id).active = false) := by
  induction ops generalizing s with
  | nil => exact ⟨Nat.le_refl _, fun id _ => ⟨Nat.le_refl _, fun hh => hh⟩⟩
  | cons op rest ih =>
    obtain ⟨hn1, hstep⟩ := applyOp_mono s op
    obtain ⟨hn2, hrest⟩ := ih (applyOp s op)
    refine ⟨Nat.le_trans hn1 hn2, fun id hid => ?_⟩
    obtain ⟨ht1, ha1⟩ := hstep id hid
    obtain ⟨ht2, ha2⟩ := hrest id (Nat.le_trans hid hn1)
    exact ⟨Nat.le_trans ht1 ht2, fun hf => ha2 (ha1 hf)⟩

/-- Claim C4 counterexample: with the genesis block 0 as environment, create
session 1 at block 0 and end it at block 0; the created session then has
endBlock = 0 together with active = false, violating the claimed invariant
endSlot == 0 iff active == true. The uint64 cast in _endSession makes the
same violation occur at any block number divisible by 2^64. -/
theorem session_invariants_cex :
    (execTrace (initState 9) [Op.create 7 0, Op.endOp 7 1 0]).nextSessionId = 1 ∧
    ((execTrace (initState 9) [Op.create 7 0, Op.endOp 7 1 0]).sessions 1).endBlock = 0 ∧
    ((execTrace (initState 9) [Op.create 7 0, Op.endOp 7 1 0]).sessions 1).active = false :=
  ⟨rfl, rfl, rfl⟩

/-- Claim C4 (amended): after every prefix of every trace of operations run
from the freshly deployed contract, every created session satisfies
endSlot == 0 iff active == true, provided every end call of the prefix runs
at a block whose uint64 truncation is nonzero (the counterexample at block 0
forces this proviso), and uniqueParticipants is at most totalEvents; and over
the remainder of the trace totalEvents never decreases and a session that is
inactive never becomes active again. -/
theorem session_invariants (deployer : Nat) (ops ops₁ ops₂ : List Op)
    (hsplit : ops = ops₁ ++ ops₂)
    (hgood : ∀ op ∈ ops₁, goodEnd op = true) :
    (∀ id, 1 ≤ id → id ≤ (execTrace (initState deployer) ops₁).nextSessionId →
      ((((execTrace (initState deployer) ops₁).sessions id).endBlock = 0) ↔
        (((execTrace (initState deployer) ops₁).sessions id).active = true)) ∧
      ((execTrace (initState deployer) ops₁).sessions id).uniquePlayers ≤
        ((execTrace (initState deployer) ops₁).sessions id).totalNotes) ∧
    (∀ id, id ≤ (execTrace (initState deployer) ops₁).nextSessionId →
      ((execTrace (initState deployer) ops₁).sessions id).totalNotes ≤
        ((execTrace (initState deployer) ops).sessions id).totalNotes ∧
      (((execTrace (initState deployer) ops₁).sessions id).active = false →
        ((execTrace (initState deployer) ops).sessions id).active = false)) := by
  subst hsplit
  have hwf := stateWF_trace (stateWF_init deployer) ops₁
  have hiff := endIffActive_trace (endIffActive_init deployer) ops₁ hgood
  have hexec : execTrace (initState deployer) (ops₁ ++ ops₂) =
      execTrace (execTrace (initState deployer) ops₁) ops₂ := by
    unfold execTrace
    rw [List.foldl_append]
  constructor
  · intro id h1 h2
    refine ⟨hiff id h1 h2, ?_⟩
    rw [hwf.2.1 id]
    exact hwf.2.2 id
  · intro id hid
    rw [hexec]
    exact (trace_mono ops₂ (execTrace (initState deployer) ops₁)).2 id hid

theorem session_invariants_witness :
    ((((execTrace (initState 9) [Op.create 7 1, Op.endOp 7 1 2]).sessions 1).endBlock = 0) ↔
      (((execTrace (initState 9) [Op.create 7 1, Op.endOp 7 1 2]).sessions 1).active = true)) ∧
    ((execTrace (initState 9) [Op.create 7 1, Op.endOp 7 1 2]).sessions 1).uniquePlayers ≤
      ((execTrace (initState 9) [Op.create 7 1, Op.endOp 7 1 2]).sessions 1).totalNotes :=
  (session_invariants 9 [Op.create 7 1, Op.endOp 7 1 2] [Op.create 7 1, Op.endOp 7 1 2] []
    (by simp) (by decide)).1 1 (by decide) (by decide)

/-! Claim C3: counters and sequencing over runs of successful touches -/

/-- One touch call: the acting account, raw coordinates, and block context. -/
structure TCall where
  sender : Nat
  x : Int
  y : Int
  blockNumber : Nat
  timestamp : Nat

/-- Apply one touch call to the state (a revert leaves the state unchanged). -/
def applyTouchCall (sid : Nat) (s : ComposerState) (c : TCall) : ComposerState :=
  touchRun s c.sender sid c.x c.y c.blockNumber c.timestamp

/-- Run a list of touch calls on one session. -/
def runTouches (s : ComposerState) (sid : Nat) (cs : List TCall) : ComposerState :=
  cs.foldl (applyTouchCall sid) s

/-- Whether every call in the list succeeds when run in order. -/
def touchesOk (s : ComposerState) (sid : Nat) : List TCall → Bool
  | [] => true
  | c :: cs =>
    touchOk s c.sender sid c.x c.y c.blockNumber c.timestamp &&
      touchesOk (applyTouchCall sid s c) sid cs

/-- The session sid has seen no touch yet: counters are zero, nobody has a
participation record, the per-block counters are zero, and no event of the
session is in the log. -/
def FreshSession (s : ComposerState) (sid : Nat) : Prop :=
  (s.sessions sid).totalNotes = 0 ∧
  (s.sessions sid).uniquePlayers = 0 ∧
  s.playerCount sid = 0 ∧
  (∀ a, s.hasPlayed sid a = false) ∧
  (∀ b, s.notesInBlock sid b = 0) ∧
  (∀ e ∈ s.log, e.sessionId ≠ sid)

/-- Relation between the contract state and the history of a single session:
base is the log before the run, L the events the session emitted so far, A
the set of actors that touched so far. -/
def TouchTraceInv (s : ComposerState) (sid : Nat)
    (base L : List NoteCreated) (A : Finset Nat) : Prop :=
  s.log = base ++ L ∧
  (∀ e ∈ base, e.sessionId ≠ sid) ∧
  (∀ e ∈ L, e.sessionId = sid) ∧
  (s.sessions sid).totalNotes = L.length ∧
  (∀ a, s.hasPlayed sid a = true ↔ a ∈ A) ∧
  s.playerCount sid = A.card ∧
  (s.sessions sid).uniquePlayers = A.card ∧
  (∀ b, s.notesInBlock sid b = (L.filter (fun e => e.blockNum == b)).length) ∧
  (∀ i : Nat, ∀ hi : i < L.length,
    (L.get ⟨i, hi⟩).totalNotesInSession = i + 1 ∧
    (L.get ⟨i, hi⟩).noteIndex =
      ((L.take (i + 1)).filter
        (fun e => e.blockNum == (L.get ⟨i, hi⟩).blockNum)).length)

theorem touchTraceInv_step {s : ComposerState} {sid : Nat}
    {base L : List NoteCreated} {A : Finset Nat} {c : TCall}
    {p : ComposerState × NoteCreated}
    (hinv : TouchTraceInv s sid base L A)
    (htr : touch s c.sender sid c.x c.y c.blockNumber c.timestamp = .ok p) :
    TouchTraceInv p.1 sid base (L ++ [p.2]) (insert c.sender A) := by
  obtain ⟨h1, h2, h3, h4, h5, h6, h7, h8, h9⟩ := hinv
  obtain ⟨hev, hlog, -, -, htn, -, -, -, -, -, hnib, hcase⟩ := touch_ok_result htr
  have hevsid : p.2.sessionId = sid := by rw [hev]
  have hevblock : p.2.blockNum = c.blockNumber % UINT64_MOD := by rw [hev]
  have hevnote : p.2.noteIndex =
      s.notesInBlock sid (c.blockNumber % UINT64_MOD) + 1 := by rw [hev]
  have hevtotal : p.2.totalNotesInSession = (s.sessions sid).totalNotes + 1 := by
    rw [hev]
  refine ⟨?_, h2, ?_, ?_, ?_, ?_, ?_, ?_, ?_⟩
  · rw [hlog, h1, List.append_assoc]
  · intro e he
    rcases List.mem_append.mp he with hL | hsingle
    · exact h3 e hL
    · rw [List.mem_singleton.mp hsingle]
      exact hevsid
  · rw [htn, h4, List.length_append]
    rfl
  · intro a
    by_cases hp : s.hasPlayed sid c.sender = false
    · rw [if_pos hp] at hcase
      rw [hcase.2.2.1 sid a]
      by_cases ha : a = c.sender
      · simp [ha]
      · simp [ha, h5 a]
    · rw [if_neg hp] at hcase
      have hsendmem : c.sender ∈ A := by
        rw [← h5 c.sender]
        simpa using hp
      rw [hcase.2.2, Finset.insert_eq_self.mpr hsendmem]
      exact h5 a
  · by_cases hp : s.hasPlayed sid c.sender = false
    · rw [if_pos hp] at hcase
      have hnot : c.sender ∉ A := by
        rw [← h5 c.sender]
        simp [hp]
      rw [hcase.2.1, h6, Finset.card_insert_of_not_mem hnot]
    · rw [if_neg hp] at hcase
      have hsendmem : c.sender ∈ A := by
        rw [← h5 c.sender]
        simpa using hp
      rw [hcase.2.1, h6, Finset.insert_eq_self.mpr hsendmem]
  · by_cases hp : s.hasPlayed sid c.sender = false
    · rw [if_pos hp] at hcase
      have hnot : c.sender ∉ A := by
        rw [← h5 c.sender]
        simp [hp]
      rw [hcase.1, h6, Finset.card_insert_of_not_mem hnot]
    · rw [if_neg hp] at hcase
      have hsendmem : c.sender ∈ A := by
        rw [← h5 c.sender]
        simpa using hp
      rw [hcase.1, h7, Finset.insert_eq_self.mpr hsendmem]
  · intro b
    rw [hnib sid b, List.filter_append]
    by_cases hb : b = c.blockNumber % UINT64_MOD
    · rw [if_pos ⟨rfl, hb⟩, h8 b]
      have : p.2.blockNum == b := by
        rw [hevblock, hb]
        simp
      simp [List.filter_cons, this]
    · rw [if_neg (fun hand => hb hand.2), h8 b]
      have : ¬ (p.2.blockNum == b) := by
        rw [hevblock]
        simpa using fun heq => hb heq.symm
      simp [List.filter_cons, this]
  · intro i hi
    by_cases hlt : i < L.length
    · have hget : (L ++ [p.2]).get ⟨i, hi⟩ = L.get ⟨i, hlt⟩ := by
        rw [List.get_eq_getElem, List.get_eq_getElem]
        exact List.getElem_append_left hlt
      have htake : (L ++ [p.2]).take (i + 1) = L.take (i + 1) :=
        List.take_append_of_le_length (by omega)
      rw [hget, htake]
      exact h9 i hlt
    · have hieq : i = L.length := by
        rw [List.length_append] at hi
        simp at hi
        omega
      have hget : (L ++ [p.2]).get ⟨i, hi⟩ = p.2 := by
        rw [List.get_eq_getElem]
        exact List.getElem_concat_length L p.2 i hieq hi
      have htake : (L ++ [p.2]).take (i + 1) = L ++ [p.2] := by
        subst hieq
        have : L.length + 1 = (L ++ [p.2]).length := by simp
        rw [this, List.take_length]
      rw [hget, htake]
      constructor
      · rw [hevtotal, h4, hieq]
      · rw [hevnote, h8, List.filter_append]
        have : p.2.blockNum == p.2.blockNum := by simp
        simp [List.filter_cons, this, hevblock, hieq]

theorem touchTraceInv_run (sid : Nat) (base : List NoteCreated) (cs : List TCall) :
    ∀ (s : ComposerState) (L : List NoteCreated) (A : Finset Nat),
      TouchTraceInv s sid base L A → touchesOk s sid cs = true →
      ∃ L₂ : List NoteCreated, L₂.length = cs.length ∧
        TouchTraceInv (runTouches s sid cs) sid base (L ++ L₂)
          (A ∪ (cs.map TCall.sender).toFinset) := by
  induction cs with
  | nil =>
    intro s L A hinv hok
    exact ⟨[], rfl, by simpa using hinv⟩
  | cons c rest ih =>
    intro s L A hinv hok
    simp only [touchesOk, Bool.and_eq_true] at hok
    obtain ⟨hok1, hokrest⟩ := hok
    have hex : ∃ p, touch s c.sender sid c.x c.y c.blockNumber c.timestamp = .ok p := by
      unfold touchOk at hok1
      cases htr : touch s c.sender sid c.x c.y c.blockNumber c.timestamp with
      | ok p => exact ⟨p, rfl⟩
      | error e =>
        rw [htr] at hok1
        simp at hok1
    obtain ⟨p, htr⟩ := hex
    have hstep := touchTraceInv_step hinv htr
    have happly : applyTouchCall sid s c = p.1 := by
      unfold applyTouchCall touchRun
      rw [htr]
    obtain ⟨L₂, hlen, hinv₂⟩ :=
      ih (applyTouchCall sid s c) (L ++ [p.2]) (insert c.sender A)
        (by rw [happly]; exact hstep) hokrest
    refine ⟨p.2 :: L₂, by simp [hlen], ?_⟩
    have hL : L ++ p.2 :: L₂ = (L ++ [p.2]) ++ L₂ := by simp
    have hset : insert c.sender A ∪ (rest.map TCall.sender).toFinset =
        A ∪ ((c :: rest).map TCall.sender).toFinset := by
      simp only [List.map_cons, List.toFinset_cons, Finset.insert_union,
        Finset.union_insert]
    rw [hL, ← hset]
    exact hinv₂

/-- Claim C3: for every fresh session and every sequence of N successful
Touch calls on it, the session afterwards has totalEvents = N and
uniqueParticipants equal to the number of distinct actors among the calls;
the events appended to the log are exactly N events of this session, the
i-th of which carries sessionSequence (totalNotesInSession) i and a
slotLocalIndex (noteIndex) equal to the 1-based count of accepted touches of
this session within the same slot so far. -/
theorem touch_counters (s : ComposerState) (sid : Nat) (cs : List TCall)
    (hfresh : FreshSession s sid)
    (hok : touchesOk s sid cs = true) :
    ((runTouches s sid cs).sessions sid).totalNotes = cs.length ∧
    ((runTouches s sid cs).sessions sid).uniquePlayers =
      (cs.map TCall.sender).toFinset.card ∧
    ∃ L : List NoteCreated,
      (runTouches s sid cs).log = s.log ++ L ∧
      L.length = cs.length ∧
      (∀ e ∈ L, e.sessionId = sid) ∧
      (∀ i : Nat, ∀ hi : i < L.length,
        (L.get ⟨i, hi⟩).totalNotesInSession = i + 1 ∧
        (L.get ⟨i, hi⟩).noteIndex =
          ((L.take (i + 1)).filter
            (fun e => e.blockNum == (L.get ⟨i, hi⟩).blockNum)).length) := by
  obtain ⟨hf1, hf2, hf3, hf4, hf5, hf6⟩ := hfresh
  have hbase : TouchTraceInv s sid s.log [] ∅ := by
    refine ⟨by simp, hf6, by simp, by simpa using hf1, ?_, by simpa using hf3,
      by simpa using hf2, by simpa using hf5, by simp⟩
    intro a
    simp [hf4 a]
  obtain ⟨L₂, hlen, hinv⟩ := touchTraceInv_run sid s.log cs s [] ∅ hbase hok
  obtain ⟨g1, g2, g3, g4, g5, g6, g7, g8, g9⟩ := hinv
  refine ⟨by simpa [hlen] using g4, ?_, L₂, by simpa using g1, hlen,
    fun e he => g3 e (by simpa using he), ?_⟩
  · rw [g7]
    simp
  · intro i hi
    have := g9 i (by simpa using hi)
    simpa using this

/-- Three successful touches on fresh session 1: actors 4, 5, 4, two of them
in block 6 and one in block 7. -/
def c3Calls : List TCall :=
  [⟨4, 10, 20, 6, 100⟩, ⟨5, -2000, 0, 6, 101⟩, ⟨4, 3, 4, 7, 102⟩]

theorem touch_counters_witness :
    ((runTouches sessionOneState 1 c3Calls).sessions 1).totalNotes = 3 ∧
    ((runTouches sessionOneState 1 c3Calls).sessions 1).uniquePlayers = 2 := by
  have h := touch_counters sessionOneState 1 c3Calls
    ⟨rfl, rfl, rfl, fun a => rfl, fun b => rfl,
      fun e he => absurd he (List.not_mem_nil e)⟩ rfl
  refine ⟨h.1, ?_⟩
  rw [h.2.1]
  rfl

/-! Sync client backfill (DriftEventListener.fetchAllEvents) -/

/-- The decoded NoteCreated log entry the listener works with. -/
structure NoteEvent where
  sessionId : Nat
  player : Nat
  x : Int
  y : Int
  blockNum : Nat
  timestamp : Nat
  noteIndex : Nat
  totalNotes : Nat
  txHash : String
deriving DecidableEq, Repr

/-- Blocks per chunked getLogs request. -/
def CHUNK_SIZE : Nat := 5000

/-- Size of the fallback scan window below the head. -/
def BACKFILL_WINDOW : Nat := 50000

/-- Resolve the backfill start position: the startBlock read from getSession
when the read succeeded with a truthy (nonzero) value, otherwise the head
minus 50000, floored at 0. -/
def resolveStartBlock (readStart : Option Nat) (currentBlock : Nat) : Nat :=
  match readStart with
  | some v =>
    if v = 0 then
      if BACKFILL_WINDOW < currentBlock then currentBlock - BACKFILL_WINDOW else 0
    else v
  | none =>
    if BACKFILL_WINDOW < currentBlock then currentBlock - BACKFILL_WINDOW else 0

/-- The ranges the chunked while loop queries, produced with explicit fuel:
each step covers [fromBlock, min (fromBlock + CHUNK_SIZE - 1) currentBlock]
and the next step resumes one block later. -/
def chunkWalk (fuel : Nat) (fromBlock currentBlock : Nat) : List (Nat × Nat) :=
  match fuel with
  | 0 => []
  | fuel + 1 =>
    if fromBlock ≤ currentBlock then
      (fromBlock, min (fromBlock + CHUNK_SIZE - 1) currentBlock) ::
        chunkWalk fuel (min (fromBlock + CHUNK_SIZE - 1) currentBlock + 1) currentBlock
    else []

/-- All ranges of the chunked walk from fromBlock to currentBlock. -/
def chunkRanges (fromBlock currentBlock : Nat) : List (Nat × Nat) :=
  chunkWalk (currentBlock + 1 - fromBlock) fromBlock currentBlock

/-- The events one successful chunked getLogs call contributes: the log
entries of the block range, skipping falsy session ids and keeping only the
target session (the filter in the loop body of fetchAllEvents). -/
def fetchChunk (log : List NoteEvent) (sessionId f t : Nat) : List NoteEvent :=
  (log.filter (fun e => decide (f ≤ e.blockNum) && decide (e.blockNum ≤ t))).filter
    (fun e => !(e.sessionId == 0) && (e.sessionId == sessionId))

/-- The accumulation loop of fetchAllEvents: failed chunks are skipped,
successful chunks append their events. -/
def gatherChunks (log : List NoteEvent) (sessionId : Nat)
    (chunkFails : Nat → Nat → Bool) (ranges : List (Nat × Nat))
    (acc : List NoteEvent) : List NoteEvent :=
  ranges.foldl
    (fun acc ft =>
      if chunkFails ft.1 ft.2 then acc
      else acc ++ fetchChunk log sessionId ft.1 ft.2) acc

/-- The sort order of fetchAllEvents: blockNum ascending, ties broken by
noteIndex ascending. A stable sort under this relation computes the same
list as the stable JS Array sort under the numeric comparator of the code. -/
def noteLE (a b : NoteEvent) : Prop :=
  a.blockNum < b.blockNum ∨ (a.blockNum = b.blockNum ∧ a.noteIndex ≤ b.noteIndex)

instance : DecidableRel noteLE := fun a b => by
  unfold noteLE
  exact inferInstance

instance : IsTotal NoteEvent noteLE :=
  ⟨fun a b => by unfold noteLE; omega⟩

instance : IsTrans NoteEvent noteLE :=
  ⟨fun a b c hab hbc => by unfold noteLE at hab hbc ⊢; omega⟩

/-- fetchAllEvents: resolve the start position, walk the chunks accumulating
events of the target session (skipping failed chunks), and sort by
(blockNum, noteIndex); a failure of the initial head fetch yields the empty
accumulated list. -/
def fetchAllEvents (log : List NoteEvent) (currentBlock : Nat)
    (readStart : Option Nat) (chunkFails : Nat → Nat → Bool) (headFails : Bool)
    (sessionId : Nat) : List NoteEvent :=
  if headFails then []
  else
    List.insertionSort noteLE
      (gatherChunks log sessionId chunkFails
        (chunkRanges (resolveStartBlock readStart currentBlock) currentBlock) [])

theorem chunkWalk_shape : ∀ (fuel fromBlock currentBlock : Nat),
    ∀ c ∈ chunkWalk fuel fromBlock currentBlock,
      fromBlock ≤ c.1 ∧ c.1 ≤ c.2 ∧ c.2 ≤ currentBlock ∧
      c.2 + 1 - c.1 ≤ CHUNK_SIZE := by
  intro fuel
  induction fuel with
  | zero => intro f cur c hc; simp [chunkWalk] at hc
  | succ n ih =>
    intro f cur c hc
    have hcs : CHUNK_SIZE = 5000 := rfl
    unfold chunkWalk at hc
    by_cases hf : f ≤ cur
    · rw [if_pos hf] at hc
      rcases List.mem_cons.mp hc with hhead | htail
      · subst hhead
        simp only []
        omega
      · have := ih (min (f + CHUNK_SIZE - 1) cur + 1) cur c htail
        omega
    · rw [if_neg hf] at hc
      simp at hc

theorem chunkWalk_cover : ∀ (fuel fromBlock currentBlock b : Nat),
    currentBlock + 1 - fromBlock ≤ fuel → fromBlock ≤ b → b ≤ currentBlock →
    ∃ c ∈ chunkWalk fuel fromBlock currentBlock, c.1 ≤ b ∧ b ≤ c.2 := by
  intro fuel
  induction fuel with
  | zero => intro f cur b hfuel hb1 hb2; omega
  | succ n ih =>
    intro f cur b hfuel hb1 hb2
    have hcs : CHUNK_SIZE = 5000 := rfl
    have hf : f ≤ cur := by omega
    unfold chunkWalk
    rw [if_pos hf]
    by_cases hb : b ≤ min (f + CHUNK_SIZE - 1) cur
    · exact ⟨(f, min (f + CHUNK_SIZE - 1) cur), List.mem_cons_self _ _, hb1, hb⟩
    · obtain ⟨c, hc, hcb⟩ :=
        ih (min (f + CHUNK_SIZE - 1) cur + 1) cur b (by omega) (by omega) hb2
      exact ⟨c, List.mem_cons_of_mem _ hc, hcb⟩

theorem chunkWalk_pairwise : ∀ (fuel fromBlock currentBlock : Nat),
    List.Pairwise (fun c d => c.2 < d.1) (chunkWalk fuel fromBlock currentBlock) := by
  intro fuel
  induction fuel with
  | zero => intro f cur; simp [chunkWalk]
  | succ n ih =>
    intro f cur
    unfold chunkWalk
    by_cases hf : f ≤ cur
    · rw [if_pos hf]
      refine List.Pairwise.cons ?_ (ih _ cur)
      intro d hd
      have := chunkWalk_shape n (min (f + CHUNK_SIZE - 1) cur + 1) cur d hd
      omega
    · rw [if_neg hf]
      exact List.Pairwise.nil

theorem mem_fetchChunk {log : List NoteEvent} {sessionId f t : Nat} {e : NoteEvent} :
    e ∈ fetchChunk log sessionId f t ↔
      e ∈ log ∧ f ≤ e.blockNum ∧ e.blockNum ≤ t ∧
      e.sessionId ≠ 0 ∧ e.sessionId = sessionId := by
  unfold fetchChunk
  simp only [List.mem_filter, Bool.and_eq_true, decide_eq_true_eq, Bool.not_eq_true',
    beq_eq_false_iff_ne, beq_iff_eq]
  tauto

theorem filter_sublist_of_imp {α : Type} {p q : α → Bool}
    (h : ∀ a, p a = true → q a = true) (l : List α) :
    (l.filter p).Sublist (l.filter q) := by
  induction l with
  | nil => simp
  | cons a l ih =>
    by_cases hp : p a = true
    · rw [List.filter_cons_of_pos hp, List.filter_cons_of_pos (h a hp)]
      exact ih.cons₂ a
    · rw [List.filter_cons_of_neg (by simpa using hp)]
      by_cases hq : q a = true
      · rw [List.filter_cons_of_pos hq]
        exact ih.cons a
      · rw [List.filter_cons_of_neg (by simpa using hq)]
        exact ih

theorem fetchChunk_sublist (log : List NoteEvent) (sessionId f t : Nat) :
    (fetchChunk log sessionId f t).Sublist
      (log.filter (fun e => e.sessionId == sessionId)) := by
  unfold fetchChunk
  refine List.Sublist.trans (filter_sublist_of_imp ?_ _)
    (List.Sublist.filter _ (List.filter_sublist _))
  intro a ha
  simp only [Bool.and_eq_true, Bool.not_eq_true', beq_eq_false_iff_ne, beq_iff_eq] at ha ⊢
  exact ha.2

theorem mem_gatherChunks {log : List NoteEvent} {sessionId : Nat}
    {chunkFails : Nat → Nat → Bool} :
    ∀ (ranges : List (Nat × Nat)) (acc : List NoteEvent) (e : NoteEvent),
      e ∈ gatherChunks log sessionId chunkFails ranges acc ↔
        e ∈ acc ∨ ∃ c ∈ ranges, chunkFails c.1 c.2 = false ∧
          e ∈ fetchChunk log sessionId c.1 c.2 := by
  intro ranges
  induction ranges with
  | nil => simp [gatherChunks]
  | cons c rest ih =>
    intro acc e
    unfold gatherChunks
    simp only [List.foldl_cons]
    by_cases hf : chunkFails c.1 c.2
    · rw [if_pos hf]
      rw [show rest.foldl _ acc = gatherChunks log sessionId chunkFails rest acc from rfl,
        ih acc e]
      constructor
      · rintro (hacc | ⟨d, hd, hdf, hde⟩)
        · exact Or.inl hacc
        · exact Or.inr ⟨d, List.mem_cons_of_mem _ hd, hdf, hde⟩
      · rintro (hacc | ⟨d, hd, hdf, hde⟩)
        · exact Or.inl hacc
        · rcases List.mem_cons.mp hd with hdc | hdrest
          · subst hdc
            rw [hf] at hdf
            cases hdf
          · exact Or.inr ⟨d, hdrest, hdf, hde⟩
    · rw [if_neg hf]
      rw [show rest.foldl _ (acc ++ fetchChunk log sessionId c.1 c.2) =
        gatherChunks log sessionId chunkFails rest
          (acc ++ fetchChunk log sessionId c.1 c.2) from rfl,
        ih _ e]
      simp only [List.mem_append]
      constructor
      · rintro ((hacc | hchunk) | ⟨d, hd, hdf, hde⟩)
        · exact Or.inl hacc
        · exact Or.inr ⟨c, List.mem_cons_self _ _, by simpa using hf, hchunk⟩
        · exact Or.inr ⟨d, List.mem_cons_of_mem _ hd, hdf, hde⟩
      · rintro (hacc | ⟨d, hd, hdf, hde⟩)
        · exact Or.inl (Or.inl hacc)
        · rcases List.mem_cons.mp hd with hdc | hdrest
          · subst hdc
            exact Or.inl (Or.inr hde)
          · exact Or.inr ⟨d, hdrest, hdf, hde⟩

theorem gatherChunks_nodup {log : List NoteEvent} {sessionId : Nat}
    {chunkFails : Nat → Nat → Bool}
    (hses : (log.filter (fun e => e.sessionId == sessionId)).Nodup) :
    ∀ (ranges : List (Nat × Nat)) (acc : List NoteEvent),
      acc.Nodup →
      (∀ e ∈ acc, ∀ c ∈ ranges, ¬ (c.1 ≤ e.blockNum ∧ e.blockNum ≤ c.2)) →
      List.Pairwise (fun c d => c.2 < d.1) ranges →
      (gatherChunks log sessionId chunkFails ranges acc).Nodup := by
  intro ranges
  induction ranges with
  | nil =>
    intro acc hacc hsep hpair
    simpa [gatherChunks] using hacc
  | cons c rest ih =>
    intro acc hacc hsep hpair
    unfold gatherChunks
    simp only [List.foldl_cons]
    rcases List.pairwise_cons.mp hpair with ⟨hcrest, hpairrest⟩
    by_cases hf : chunkFails c.1 c.2
    · rw [if_pos hf]
      exact ih acc hacc
        (fun e he d hd => hsep e he d (List.mem_cons_of_mem _ hd)) hpairrest
    · rw [if_neg hf]
      refine ih _ ?_ ?_ hpairrest
      · refine List.Nodup.append hacc
          ((fetchChunk_sublist log sessionId c.1 c.2).nodup hses) ?_
        rw [List.disjoint_left]
        intro e he hechunk
        have hrange := (mem_fetchChunk.mp hechunk).2.1
        have hrange2 := (mem_fetchChunk.mp hechunk).2.2.1
        exact hsep e he c (List.mem_cons_self _ _) ⟨hrange, hrange2⟩
      · intro e he d hd
        rcases List.mem_append.mp he with hacc2 | hchunk
        · exact hsep e hacc2 d (List.mem_cons_of_mem _ hd)
        · have h1 := (mem_fetchChunk.mp hchunk).2.2.1
          have h2 := hcrest d hd
          omega

theorem gatherChunks_congr {log : List NoteEvent} {sessionId : Nat}
    {fails₁ fails₂ : Nat → Nat → Bool}
    (h₁ : ∀ f t, fails₁ f t = false) (h₂ : ∀ f t, fails₂ f t = false) :
    ∀ (ranges : List (Nat × Nat)) (acc : List NoteEvent),
      gatherChunks log sessionId fails₁ ranges acc =
        gatherChunks log sessionId fails₂ ranges acc := by
  intro ranges
  induction ranges with
  | nil => intro acc; rfl
  | cons c rest ih =>
    intro acc
    unfold gatherChunks
    simp only [List.foldl_cons, h₁ c.1 c.2, h₂ c.1 c.2, Bool.false_eq_true, if_false]
    exact ih _

/-! Claim C5 -/

/-- Claim C5: every list fetchAllEvents returns contains only events of the
target session; it has no duplicate events provided the ledger log holds no
duplicate entry for that session; it is sorted ascending by the composite key
(blockNum, noteIndex); and two runs over the same ledger contents with all
chunk fetches succeeding return identical results. -/
theorem fetchAllEvents_spec (log : List NoteEvent) (currentBlock : Nat)
    (readStart : Option Nat) (chunkFails chunkFails₂ : Nat → Nat → Bool)
    (headFails : Bool) (sessionId : Nat)
    (hses : (log.filter (fun e => e.sessionId == sessionId)).Nodup) :
    (∀ e ∈ fetchAllEvents log currentBlock readStart chunkFails headFails sessionId,
      e.sessionId = sessionId) ∧
    (fetchAllEvents log currentBlock readStart chunkFails headFails sessionId).Nodup ∧
    (fetchAllEvents log currentBlock readStart chunkFails headFails sessionId).Sorted
      noteLE ∧
    ((∀ f t, chunkFails f t = false) → (∀ f t, chunkFails₂ f t = false) →
      fetchAllEvents log currentBlock readStart chunkFails headFails sessionId =
        fetchAllEvents log currentBlock readStart chunkFails₂ headFails sessionId) := by
  by_cases hh : headFails = true
  · simp [fetchAllEvents, hh, List.Sorted]
  · simp only [fetchAllEvents, if_neg hh]
    have hperm := List.perm_insertionSort noteLE
      (gatherChunks log sessionId chunkFails
        (chunkRanges (resolveStartBlock readStart currentBlock) currentBlock) [])
    refine ⟨?_, ?_, List.sorted_insertionSort noteLE _, ?_⟩
    · intro e he
      have hgather := hperm.subset he
      rcases (mem_gatherChunks _ _ e).mp hgather with hacc | ⟨c, -, -, hce⟩
      · simp at hacc
      · exact (mem_fetchChunk.mp hce).2.2.2.2
    · refine hperm.nodup_iff.mpr ?_
      exact gatherChunks_nodup hses _ [] (by simp) (by simp)
        (chunkWalk_pairwise _ _ _)
    · intro hf1 hf2
      rw [gatherChunks_congr hf1 hf2]

/-- A small concrete ledger log: three events of session 1 (one in block 11,
two in block 12) and one event of session 2. -/
def c5Log : List NoteEvent :=
  [⟨1, 4, 10, 20, 12, 100, 1, 1, "a"⟩, ⟨2, 5, 0, 0, 12, 100, 1, 1, "b"⟩,
   ⟨1, 5, 1, 2, 11, 99, 1, 1, "c"⟩, ⟨1, 4, 2, 3, 12, 100, 2, 2, "d"⟩]

theorem fetchAllEvents_spec_witness :
    (fetchAllEvents c5Log 15 (some 10) (fun _ _ => false) false 1).Nodup ∧
    (fetchAllEvents c5Log 15 (some 10) (fun _ _ => false) false 1).Sorted noteLE := by
  have h := fetchAllEvents_spec c5Log 15 (some 10) (fun _ _ => false)
    (fun _ _ => false) false 1 (by decide)
  exact ⟨h.2.1, h.2.2.1⟩

/-! Claim C8 -/

/-- Claim C8: the backfill start position is the recorded startSlot when the
getSession read succeeds with a nonzero value, and otherwise falls back to
head minus 50000 floored at 0; the walk covers [start, head] in chunks of at
most CHUNK_SIZE blocks lying inside the interval; and a failing chunk is
skipped without aborting the walk, so every ledger entry of the target
session that lies in a successful chunk is still in the returned list. -/
theorem fetchAllEvents_backfill_walk (log : List NoteEvent)
    (currentBlock : Nat) (readStart : Option Nat)
    (chunkFails : Nat → Nat → Bool) (sessionId v : Nat) :
    (v ≠ 0 → resolveStartBlock (some v) currentBlock = v) ∧
    (resolveStartBlock (some 0) currentBlock =
      (if BACKFILL_WINDOW < currentBlock then currentBlock - BACKFILL_WINDOW else 0)) ∧
    (resolveStartBlock none currentBlock =
      (if BACKFILL_WINDOW < currentBlock then currentBlock - BACKFILL_WINDOW else 0)) ∧
    (∀ c ∈ chunkRanges (resolveStartBlock readStart currentBlock) currentBlock,
      resolveStartBlock readStart currentBlock ≤ c.1 ∧ c.1 ≤ c.2 ∧
      c.2 ≤ currentBlock ∧ c.2 + 1 - c.1 ≤ CHUNK_SIZE) ∧
    (∀ b, resolveStartBlock readStart currentBlock ≤ b → b ≤ currentBlock →
      ∃ c ∈ chunkRanges (resolveStartBlock readStart currentBlock) currentBlock,
        c.1 ≤ b ∧ b ≤ c.2) ∧
    (∀ e ∈ log, e.sessionId = sessionId → sessionId ≠ 0 →
      ∀ c ∈ chunkRanges (resolveStartBlock readStart currentBlock) currentBlock,
        c.1 ≤ e.blockNum → e.blockNum ≤ c.2 → chunkFails c.1 c.2 = false →
        e ∈ fetchAllEvents log currentBlock readStart chunkFails false sessionId) := by
  refine ⟨?_, ?_, ?_, chunkWalk_shape _ _ _,
    fun b hb1 hb2 => chunkWalk_cover _ _ _ b (Nat.le_refl _) hb1 hb2, ?_⟩
  · intro hv
    simp [resolveStartBlock, hv]
  · simp [resolveStartBlock]
  · simp [resolveStartBlock]
  · intro e helog hesid hsid0 c hc hc1 hc2 hcf
    have hchunk : e ∈ fetchChunk log sessionId c.1 c.2 :=
      mem_fetchChunk.mpr ⟨helog, hc1, hc2, by rw [hesid]; exact hsid0, hesid⟩
    have hgather := (mem_gatherChunks
      (chunkRanges (resolveStartBlock readStart currentBlock) currentBlock) [] e).mpr
      (Or.inr ⟨c, hc, hcf, hchunk⟩)
    simp only [fetchAllEvents, if_neg (by simp : ¬ (false = true))]
    exact ((List.perm_insertionSort noteLE _).mem_iff).mpr hgather

theorem fetchAllEvents_backfill_walk_witness :
    (⟨1, 4, 0, 0, 6000, 1, 1, 1, "h"⟩ : NoteEvent) ∈
      fetchAllEvents [⟨1, 4, 0, 0, 6000, 1, 1, 1, "h"⟩] 10007 (some 10)
        (fun f _ => decide (f = 10)) false 1 := by
  have h := fetchAllEvents_backfill_walk [⟨1, 4, 0, 0, 6000, 1, 1, 1, "h"⟩]
    10007 (some 10) (fun f _ => decide (f = 10)) 1 10
  exact h.2.2.2.2.2 ⟨1, 4, 0, 0, 6000, 1, 1, 1, "h"⟩ (by simp) rfl (by decide)
    (5010, 10007) (by decide) (by decide) (by decide) (by decide)

/-! Replay scheduler (scheduleRecapLoop) -/

/-- Milliseconds per block of compressed playback. -/
def BLOCK_GAP_MS : Int := 200

/-- Milliseconds between events of the same block. -/
def INTRA_BLOCK_GAP_MS : Int := 80

/-- Pause after the last offset before the loop timer restarts the schedule. -/
def LOOP_PAUSE_MS : Int := 2000

/-- The backward scan of scheduleRecapLoop: how many immediately preceding
events (a contiguous run) of the processed prefix carry block b, that is,
the length of the maximal suffix of the prefix whose entries have block b. -/
def intraIndexBack (pre : List NoteEvent) (b : Nat) : Nat :=
  (pre.reverse.takeWhile (fun e => e.blockNum == b)).length

/-- The timing loop of scheduleRecapLoop with the processed prefix made
explicit: each event contributes
(blockNum − baseBlock) · BLOCK_GAP_MS + intraIndex · INTRA_BLOCK_GAP_MS. -/
def timingsAux (base : Nat) (pre : List NoteEvent) : List NoteEvent → List Int
  | [] => []
  | ev :: rest =>
    (((ev.blockNum : Int) - (base : Int)) * BLOCK_GAP_MS +
        (intraIndexBack pre ev.blockNum : Int) * INTRA_BLOCK_GAP_MS) ::
      timingsAux base (pre ++ [ev]) rest

/-- All offsets of the schedule. An empty input produces no timings: the
code returns before computing anything. -/
def recapTimings : List NoteEvent → List Int
  | [] => []
  | e0 :: rest => timingsAux e0.blockNum [] (e0 :: rest)

/-- totalDuration as the loop computes it: a running maximum starting at 0. -/
def totalDuration (timings : List Int) : Int :=
  timings.foldl (fun acc ms => if acc < ms then ms else acc) 0

/-- loopDuration: the restart timer fires this long after the schedule start. -/
def loopDuration (events : List NoteEvent) : Int :=
  totalDuration (recapTimings events) + LOOP_PAUSE_MS

/-- Start time of the k-th iteration of the loop: scheduleOnce re-arms
itself loopDuration after the previous start (the chained loop setTimeout). -/
def runStartTime (events : List NoteEvent) : Nat → Int
  | 0 => 0
  | k + 1 => runStartTime events k + loopDuration events

/-- Absolute fire times of iteration k: every event fires at its own offset
after the start of that iteration. -/
def scheduleFires (events : List NoteEvent) (k : Nat) : List Int :=
  (recapTimings events).map (fun t => runStartTime events k + t)

/-- The intraSlotIndex of the spec, computed forward: position of the event
inside its contiguous run of equal blocks, starting over at each block
change. -/
def runIndexAux (prevBlock prevIdx : Nat) : List NoteEvent → List Nat
  | [] => []
  | e :: rest =>
    if e.blockNum = prevBlock then
      (prevIdx + 1) :: runIndexAux e.blockNum (prevIdx + 1) rest
    else
      0 :: runIndexAux e.blockNum 0 rest

/-- Forward intraSlotIndex for a whole sequence: the first event has index 0. -/
def runIndex : List NoteEvent → List Nat
  | [] => []
  | e :: rest => 0 :: runIndexAux e.blockNum 0 rest

theorem intraIndexBack_append (pre : List NoteEvent) (ev : NoteEvent) (b : Nat) :
    intraIndexBack (pre ++ [ev]) b =
      if b = ev.blockNum then intraIndexBack pre b + 1 else 0 := by
  unfold intraIndexBack
  rw [List.reverse_append]
  by_cases hb : b = ev.blockNum
  · simp [hb, List.takeWhile_cons]
  · have : ¬ (ev.blockNum == b) = true := by
      simpa using fun heq => hb heq.symm
    simp [List.takeWhile_cons, this, hb]

theorem timingsAux_eq_zipWith (base : Nat) :
    ∀ (rest : List NoteEvent) (pre : List NoteEvent) (prevBlock prevIdx : Nat),
      (∀ b, intraIndexBack pre b = if b = prevBlock then prevIdx + 1 else 0) →
      timingsAux base pre rest =
        List.zipWith
          (fun (e : NoteEvent) (k : Nat) =>
            ((e.blockNum : Int) - (base : Int)) * BLOCK_GAP_MS +
              (k : Int) * INTRA_BLOCK_GAP_MS)
          rest (runIndexAux prevBlock prevIdx rest) := by
  intro rest
  induction rest with
  | nil => intro pre prevBlock prevIdx hrel; rfl
  | cons ev rest ih =>
    intro pre prevBlock prevIdx hrel
    unfold timingsAux runIndexAux
    by_cases hsame : ev.blockNum = prevBlock
    · rw [if_pos hsame]
      simp only [List.zipWith_cons_cons]
      refine congrArg₂ _ ?_ ?_
      · rw [hrel ev.blockNum, if_pos hsame]
      · refine ih (pre ++ [ev]) ev.blockNum (prevIdx + 1) ?_
        intro b
        rw [intraIndexBack_append, hrel b]
        split_ifs <;> omega
    · rw [if_neg hsame]
      simp only [List.zipWith_cons_cons]
      refine congrArg₂ _ ?_ ?_
      · rw [hrel ev.blockNum, if_neg hsame]
      · refine ih (pre ++ [ev]) ev.blockNum 0 ?_
        intro b
        rw [intraIndexBack_append, hrel b]
        split_ifs <;> omega

theorem foldl_runMax_le : ∀ (l : List Int) (a : Int),
    a ≤ l.foldl (fun acc ms => if acc < ms then ms else acc) a ∧
    ∀ t ∈ l, t ≤ l.foldl (fun acc ms => if acc < ms then ms else acc) a := by
  intro l
  induction l with
  | nil => intro a; exact ⟨Int.le_refl a, by simp⟩
  | cons b l ih =>
    intro a
    simp only [List.foldl_cons]
    obtain ⟨h1, h2⟩ := ih (if a < b then b else a)
    have hab : a ≤ (if a < b then b else a) := by split_ifs <;> omega
    have hbb : b ≤ (if a < b then b else a) := by split_ifs <;> omega
    refine ⟨Int.le_trans hab h1, ?_⟩
    intro t ht
    rcases List.mem_cons.mp ht with rfl | htl
    · exact Int.le_trans hbb h1
    · exact h2 t htl

theorem foldl_runMax_mem : ∀ (l : List Int) (a : Int),
    l.foldl (fun acc ms => if acc < ms then ms else acc) a = a ∨
    l.foldl (fun acc ms => if acc < ms then ms else acc) a ∈ l := by
  intro l
  induction l with
  | nil => intro a; exact Or.inl rfl
  | cons b l ih =>
    intro a
    simp only [List.foldl_cons]
    rcases ih (if a < b then b else a) with heq | hmem
    · rw [heq]
      by_cases hab : a < b
      · rw [if_pos hab]
        exact Or.inr (List.mem_cons_self _ _)
      · rw [if_neg hab]
        exact Or.inl rfl
    · exact Or.inr (List.mem_cons_of_mem _ hmem)

theorem recapTimings_head (e0 : NoteEvent) (rest : List NoteEvent) :
    recapTimings (e0 :: rest) =
      0 :: timingsAux e0.blockNum [e0] rest := by
  show (((e0.blockNum : Int) - (e0.blockNum : Int)) * BLOCK_GAP_MS +
      (intraIndexBack [] e0.blockNum : Int) * INTRA_BLOCK_GAP_MS) ::
      timingsAux e0.blockNum ([] ++ [e0]) rest =
    0 :: timingsAux e0.blockNum [e0] rest
  simp [intraIndexBack]

/-- Claim C6: for a non-empty input, the offsets of the recap schedule are
exactly offset(i) = (slot(i) − slot(0)) · 200 + intraSlotIndex(i) · 80 where
intraSlotIndex counts the immediately preceding contiguous events of the
same slot; the loop timer fires at max(offset) + 2000 after each schedule
start; and iteration k of the loop replays every event at
k · loopDuration + offset, that is, each restart begins again from offset 0,
for every iteration until cancellation. -/
theorem recap_schedule_spec (e0 : NoteEvent) (rest : List NoteEvent) :
    recapTimings (e0 :: rest) =
      List.zipWith
        (fun (e : NoteEvent) (k : Nat) =>
          ((e.blockNum : Int) - (e0.blockNum : Int)) * BLOCK_GAP_MS +
            (k : Int) * INTRA_BLOCK_GAP_MS)
        (e0 :: rest) (runIndex (e0 :: rest)) ∧
    (∀ t ∈ recapTimings (e0 :: rest), t ≤ totalDuration (recapTimings (e0 :: rest))) ∧
    totalDuration (recapTimings (e0 :: rest)) ∈ recapTimings (e0 :: rest) ∧
    loopDuration (e0 :: rest) = totalDuration (recapTimings (e0 :: rest)) + 2000 ∧
    (∀ k, scheduleFires (e0 :: rest) k =
      (recapTimings (e0 :: rest)).map
        (fun t => (k : Int) * loopDuration (e0 :: rest) + t)) ∧
    scheduleFires (e0 :: rest) 0 = recapTimings (e0 :: rest) := by
  have hstart : ∀ k, runStartTime (e0 :: rest) k = (k : Int) * loopDuration (e0 :: rest) := by
    intro k
    induction k with
    | zero => simp [runStartTime]
    | succ n ihn =>
      unfold runStartTime
      rw [ihn]
      push_cast
      ring
  refine ⟨?_, ?_, ?_, rfl, ?_, ?_⟩
  · rw [recapTimings_head]
    unfold runIndex
    simp only [List.zipWith_cons_cons]
    refine congrArg₂ _ ?_ ?_
    · simp
    · refine timingsAux_eq_zipWith e0.blockNum rest [e0] e0.blockNum 0 ?_
      intro b
      unfold intraIndexBack
      by_cases hb : b = e0.blockNum
      · simp [hb]
      · have : ¬ (e0.blockNum == b) = true := by
          simpa using fun heq => hb heq.symm
        simp [this, hb]
  · exact fun t ht => (foldl_runMax_le (recapTimings (e0 :: rest)) 0).2 t ht
  · rcases foldl_runMax_mem (recapTimings (e0 :: rest)) 0 with heq | hmem
    · rw [show totalDuration (recapTimings (e0 :: rest)) =
        (recapTimings (e0 :: rest)).foldl (fun acc ms => if acc < ms then ms else acc) 0
        from rfl, heq, recapTimings_head]
      exact List.mem_cons_self _ _
    · exact hmem
  · intro k
    unfold scheduleFires
    rw [hstart k]
  · unfold scheduleFires
    simp [runStartTime]

/-! Claim C9: the recap state machine of handleRecap -/

/-- The recap UI states of the display page. -/
inductive RecapState
  | idle
  | loading
  | playing
  | empty
deriving DecidableEq, Repr

/-- The outcome of one handleRecap invocation: the state the handler settles
in, and the state a scheduled timeout will install later, when one was
armed. -/
structure RecapOutcome where
  settled : RecapState
  delayed : Option RecapState
deriving DecidableEq, Repr

/-- handleRecap: without a selected session id it is a no-op; from the
playing state it stops the recap back to idle; otherwise it fetches all
events of the session: a fetch failure settles back in idle, an empty result
settles in the empty state and arms a 3 second timeout back to idle, and a
nonempty result settles in playing. -/
def handleRecap (sessionId : Option Nat) (recapState : RecapState)
    (fetched : Option (List NoteEvent)) : RecapOutcome :=
  match sessionId with
  | none => ⟨recapState, none⟩
  | some _ =>
    if recapState = .playing then ⟨.idle, none⟩
    else
      match fetched with
      | none => ⟨.idle, none⟩
      | some events =>
        if events.length = 0 then ⟨.empty, some .idle⟩
        else ⟨.playing, none⟩

/-- Claim C9 counterexample: with a session selected and the fetch returning
zero events, handleRecap does settle in the empty state, which differs from
idle, but it also arms a timeout that installs idle again 3 seconds later
(and resumes live listening), so the empty state is left without any caller
action: it is not terminal. -/
theorem recap_empty_not_terminal_cex :
    (handleRecap (some 1) .idle (some [])).settled = .empty ∧
    (handleRecap (some 1) .idle (some [])).delayed = some .idle ∧
    (handleRecap (some 1) .idle (some [])).delayed ≠ none := by
  decide

/-- Claim C9 (amended): an empty input sequence drives the scheduler into an
empty state distinct from idle, signalling nothing to replay rather than
silently doing nothing; the state is however not terminal: the handler arms
a timeout that installs idle again 3 seconds later. -/
theorem recap_empty_state (sid : Nat) (st : RecapState) (hst : st ≠ .playing) :
    handleRecap (some sid) st (some []) =
      ⟨RecapState.empty, some RecapState.idle⟩ ∧
    RecapState.empty ≠ RecapState.idle := by
  constructor
  · simp [handleRecap, hst]
  · simp

theorem recap_empty_state_witness :
    handleRecap (some 1) RecapState.idle (some []) =
      ⟨RecapState.empty, some RecapState.idle⟩ ∧
    RecapState.empty ≠ RecapState.idle :=
  recap_empty_state 1 RecapState.idle (by decide)

end Drift
